import Mathlib

/-!
Verification of the word-linkage-zone builder (`word_linkage_zone.py`).

The module builds two flat tables from a corpus of texts: a Word Table
(one record per token, addressed by text / sentence / word position) and a
Relation Table (one record per non-root dependency edge).  The linguistic
annotator (spaCy's `nlp`) is an external collaborator: here it is an
injected function from a text to an ordered list of sentences, each an
ordered list of tokens.  A token exposes its surface form (`token.text`),
its document-global index (`token.i`), its dependency label (`token.dep_`)
and the document-global index of its head (`token.head.i`).

File I/O (directory creation, opening files) is external; serialization is
modelled by pure functions producing the exact text content written to
`words.txt` and `relations.txt`.  The gloss resolver
(`spacy.glossary.explain`) is an injected partial function
`String → Option String`, `none` standing for Python's `None`.
-/

/-- A spaCy token, restricted to the four attributes the module reads:
`token.text`, `token.i`, `token.dep_` and `token.head.i`. -/
structure Token where
  text : String
  i : Nat
  dep : String
  headI : Nat
deriving DecidableEq, Repr

/-- A sentence as returned by the annotator: an ordered list of tokens. -/
abbrev Sentence := List Token

/-- An annotated document (`doc.sents`): an ordered list of sentences. -/
abbrev Doc := List Sentence

/-- One row of the Word Table (an entry of `self.word_data`). -/
structure WordRecord where
  text_number : Nat
  sentence_number : Nat
  word_number : Nat
  word_form : String
deriving DecidableEq, Repr

/-- One row of the Relation Table (an entry of `self.relation_data`).
The Python dict stores both a `relation` and a `dep_label` key; both are
set to `token.dep_`. -/
structure RelationRecord where
  text_number : Nat
  sentence_number : Nat
  word_number1 : Nat
  word_number2 : Nat
  relation : String
  dep_label : String
deriving DecidableEq, Repr

/-- The state of a `WordLinkageZone` instance: the selected language, the
loaded annotator (`self.nlp`), and the two accumulating tables. -/
structure WordLinkageZone where
  language : String
  nlp : String → Doc
  word_data : List WordRecord
  relation_data : List RelationRecord

/-- The `model_name_map` of `load_language_model`. -/
def model_name_map : List (String × String) := [("uk", "uk_core_news_lg")]

/-- `load_language_model`: looks the language up in `model_name_map`,
raising `ValueError(f"Unsupported language: ...")` for an unknown code,
and only then asks the external loader (`spacy.load`, with a one-time
download-and-retry on `OSError`, both external) for the model.  The
loader capability returns `none` when the model cannot be obtained even
after the acquisition attempt. -/
def load_language_model (loadModel : String → Option (String → Doc)) (language : String) :
    Except String (String → Doc) :=
  match model_name_map.lookup language with
  | none => Except.error ("Unsupported language: " ++ language)
  | some model_name =>
      match loadModel model_name with
      | some nlp => Except.ok nlp
      | none => Except.error ("model load failure: " ++ model_name)

/-- `WordLinkageZone.__init__`: store the language, load the model, and
start with two empty tables. -/
def WordLinkageZone.init (loadModel : String → Option (String → Doc)) (language : String) :
    Except String WordLinkageZone :=
  match load_language_model loadModel language with
  | Except.error e => Except.error e
  | Except.ok nlp =>
      Except.ok { language := language, nlp := nlp, word_data := [], relation_data := [] }

/-- A freshly constructed instance with a given annotator: the field state
`__init__` produces after a successful model load. -/
def freshWLZ (nlp : String → Doc) (language : String) : WordLinkageZone :=
  { language := language, nlp := nlp, word_data := [], relation_data := [] }

/-- Lookup in a Python dict built by inserting the pairs of `m` in order
(later insertions overwrite earlier ones, so the LAST binding of a key
wins). -/
def dictLookup : List (Nat × Nat) → Nat → Option Nat
  | [], _ => none
  | (k, v) :: rest, key =>
      match dictLookup rest key with
      | some v2 => some v2
      | none => if key = k then some v else none

/-- The per-sentence `word_index_map`, build step: maps `token.i` to the
1-based word number `wi + 1`, for tokens starting at 0-based position
`wi` (the `enumerate` counter). -/
def wordIndexMapFrom : Nat → List Token → List (Nat × Nat)
  | _, [] => []
  | wi, tok :: rest => (tok.i, wi + 1) :: wordIndexMapFrom (wi + 1) rest

/-- The complete `word_index_map` of a sentence. -/
def wordIndexMap (sent : Sentence) : List (Nat × Nat) :=
  wordIndexMapFrom 0 sent

/-- The `word_list` built for one sentence: one `WordRecord` per token,
`word_number = word_index + 1` with `word_index` the `enumerate` counter
starting at `wi`. -/
def sentenceWordsAux (tn sn : Nat) : Nat → List Token → List WordRecord
  | _, [] => []
  | wi, tok :: rest =>
      { text_number := tn, sentence_number := sn,
        word_number := wi + 1, word_form := tok.text } :: sentenceWordsAux tn sn (wi + 1) rest

/-- All word records of one sentence (`enumerate` starts at 0). -/
def sentenceWords (tn sn : Nat) (sent : Sentence) : List WordRecord :=
  sentenceWordsAux tn sn 0 sent

/-- The body of the relation loop for one token: if `token.head.i` is a
key of `word_index_map` and `token.dep_ != 'ROOT'`, emit a relation
record with `word_number1 = word_index_map[token.i]` and
`word_number2 = word_index_map[token.head.i]`.  The inner lookup of
`token.i` can never miss (the map indexes every token of the sentence,
see `dictLookup_wordIndexMap_self_isSome`), so the `none` fallback is
unreachable. -/
def relationFor (tn sn : Nat) (m : List (Nat × Nat)) (tok : Token) : Option RelationRecord :=
  if (dictLookup m tok.headI).isSome && !(tok.dep == "ROOT") then
    match dictLookup m tok.i, dictLookup m tok.headI with
    | some w1, some w2 =>
        some { text_number := tn, sentence_number := sn,
               word_number1 := w1, word_number2 := w2,
               relation := tok.dep, dep_label := tok.dep }
    | _, _ => none
  else none

/-- All relation records of one sentence: the relation loop over `sent`
with the sentence's own `word_index_map`. -/
def sentenceRelations (tn sn : Nat) (sent : Sentence) : List RelationRecord :=
  sent.filterMap (relationFor tn sn (wordIndexMap sent))

/-- Processing one sentence: extend `word_data` with the sentence's
`word_list`, then append its relation records to `relation_data`. -/
def processSentence (st : WordLinkageZone) (tn sn : Nat) (sent : Sentence) : WordLinkageZone :=
  { st with
    word_data := st.word_data ++ sentenceWords tn sn sent,
    relation_data := st.relation_data ++ sentenceRelations tn sn sent }

/-- The sentence loop of `process_corpus`: `sn` is the sentence number of
the next sentence (`sent_index + 1`). -/
def processDocFrom : WordLinkageZone → Nat → Nat → List Sentence → WordLinkageZone
  | st, _, _, [] => st
  | st, tn, sn, sent :: rest => processDocFrom (processSentence st tn sn sent) tn (sn + 1) rest

/-- Processing one annotated document; sentence numbering restarts at 1. -/
def processDoc (st : WordLinkageZone) (tn : Nat) (doc : Doc) : WordLinkageZone :=
  processDocFrom st tn 1 doc

/-- The text loop of `process_corpus`: `tn` is the text number of the next
text (`text_index + 1`); each text is annotated by `self.nlp`. -/
def process_corpus_from : WordLinkageZone → Nat → List String → WordLinkageZone
  | st, _, [] => st
  | st, tn, text :: rest => process_corpus_from (processDoc st tn (st.nlp text)) (tn + 1) rest

/-- `process_corpus`: text numbering starts at 1 on every call
(`enumerate(corpus)` restarts its counter). -/
def process_corpus (st : WordLinkageZone) (corpus : List String) : WordLinkageZone :=
  process_corpus_from st 1 corpus

/-! ### Closed forms for the two tables

The following definitions give the records a call appends, laid out
document by document, sentence by sentence, token by token — exactly the
processing order. -/

/-- Word records of the sentences of one document, numbered from `sn`. -/
def docWordsFrom (tn : Nat) : Nat → List Sentence → List WordRecord
  | _, [] => []
  | sn, sent :: rest => sentenceWords tn sn sent ++ docWordsFrom tn (sn + 1) rest

/-- Word records of one document (sentence numbering restarts at 1). -/
def docWords (tn : Nat) (doc : Doc) : List WordRecord :=
  docWordsFrom tn 1 doc

/-- Relation records of the sentences of one document, numbered from `sn`. -/
def docRelationsFrom (tn : Nat) : Nat → List Sentence → List RelationRecord
  | _, [] => []
  | sn, sent :: rest => sentenceRelations tn sn sent ++ docRelationsFrom tn (sn + 1) rest

/-- Relation records of one document. -/
def docRelations (tn : Nat) (doc : Doc) : List RelationRecord :=
  docRelationsFrom tn 1 doc

/-- Word records of a corpus, texts numbered from `tn`. -/
def corpusWordsFrom (nlp : String → Doc) : Nat → List String → List WordRecord
  | _, [] => []
  | tn, text :: rest => docWords tn (nlp text) ++ corpusWordsFrom nlp (tn + 1) rest

/-- Word records appended by one `process_corpus` call (texts numbered
from 1). -/
def corpusWords (nlp : String → Doc) (corpus : List String) : List WordRecord :=
  corpusWordsFrom nlp 1 corpus

/-- Relation records of a corpus, texts numbered from `tn`. -/
def corpusRelationsFrom (nlp : String → Doc) : Nat → List String → List RelationRecord
  | _, [] => []
  | tn, text :: rest => docRelations tn (nlp text) ++ corpusRelationsFrom nlp (tn + 1) rest

/-- Relation records appended by one `process_corpus` call. -/
def corpusRelations (nlp : String → Doc) (corpus : List String) : List RelationRecord :=
  corpusRelationsFrom nlp 1 corpus

/-! ### Basic lemmas relating the loops to the closed forms -/

theorem processSentence_language (st : WordLinkageZone) (tn sn : Nat) (sent : Sentence) :
    (processSentence st tn sn sent).language = st.language := rfl

theorem processSentence_nlp (st : WordLinkageZone) (tn sn : Nat) (sent : Sentence) :
    (processSentence st tn sn sent).nlp = st.nlp := rfl

theorem processDocFrom_spec (sents : List Sentence) :
    ∀ (st : WordLinkageZone) (tn sn : Nat),
      (processDocFrom st tn sn sents).word_data = st.word_data ++ docWordsFrom tn sn sents ∧
      (processDocFrom st tn sn sents).relation_data
        = st.relation_data ++ docRelationsFrom tn sn sents ∧
      (processDocFrom st tn sn sents).language = st.language ∧
      (processDocFrom st tn sn sents).nlp = st.nlp := by
  induction sents with
  | nil => intro st tn sn; simp [processDocFrom, docWordsFrom, docRelationsFrom]
  | cons sent rest ih =>
      intro st tn sn
      have h := ih (processSentence st tn sn sent) tn (sn + 1)
      simp only [processDocFrom, docWordsFrom, docRelationsFrom]
      refine ⟨?_, ?_, ?_, ?_⟩
      · rw [h.1]; simp [processSentence, List.append_assoc]
      · rw [h.2.1]; simp [processSentence, List.append_assoc]
      · rw [h.2.2.1]; rfl
      · rw [h.2.2.2]; rfl

theorem processDoc_spec (st : WordLinkageZone) (tn : Nat) (doc : Doc) :
    (processDoc st tn doc).word_data = st.word_data ++ docWords tn doc ∧
    (processDoc st tn doc).relation_data = st.relation_data ++ docRelations tn doc ∧
    (processDoc st tn doc).language = st.language ∧
    (processDoc st tn doc).nlp = st.nlp :=
  processDocFrom_spec doc st tn 1

theorem process_corpus_from_spec (corpus : List String) :
    ∀ (st : WordLinkageZone) (tn : Nat),
      (process_corpus_from st tn corpus).word_data
        = st.word_data ++ corpusWordsFrom st.nlp tn corpus ∧
      (process_corpus_from st tn corpus).relation_data
        = st.relation_data ++ corpusRelationsFrom st.nlp tn corpus ∧
      (process_corpus_from st tn corpus).language = st.language ∧
      (process_corpus_from st tn corpus).nlp = st.nlp := by
  induction corpus with
  | nil => intro st tn; simp [process_corpus_from, corpusWordsFrom, corpusRelationsFrom]
  | cons text rest ih =>
      intro st tn
      have hd := processDoc_spec st tn (st.nlp text)
      have h := ih (processDoc st tn (st.nlp text)) (tn + 1)
      simp only [process_corpus_from, corpusWordsFrom, corpusRelationsFrom]
      rw [hd.2.2.2] at h
      refine ⟨?_, ?_, ?_, ?_⟩
      · rw [h.1, hd.1, List.append_assoc]
      · rw [h.2.1, hd.2.1, List.append_assoc]
      · rw [h.2.2.1, hd.2.2.1]
      · rw [h.2.2.2]

theorem process_corpus_spec (st : WordLinkageZone) (corpus : List String) :
    (process_corpus st corpus).word_data = st.word_data ++ corpusWords st.nlp corpus ∧
    (process_corpus st corpus).relation_data
      = st.relation_data ++ corpusRelations st.nlp corpus ∧
    (process_corpus st corpus).language = st.language ∧
    (process_corpus st corpus).nlp = st.nlp :=
  process_corpus_from_spec corpus st 1

/-! ### The per-sentence addressing map -/

theorem dictLookup_isSome_iff (key : Nat) (m : List (Nat × Nat)) :
    (dictLookup m key).isSome ↔ key ∈ m.map Prod.fst := by
  induction m with
  | nil => simp [dictLookup]
  | cons p rest ih =>
      obtain ⟨k, v⟩ := p
      simp only [dictLookup, List.map_cons, List.mem_cons]
      cases h : dictLookup rest key with
      | some v2 => simp [h] at ih; simp [ih]
      | none =>
          simp [h] at ih
          by_cases hk : key = k <;> simp [hk, ih]

theorem dictLookup_mem {key v : Nat} {m : List (Nat × Nat)}
    (h : dictLookup m key = some v) : (key, v) ∈ m := by
  induction m with
  | nil => simp [dictLookup] at h
  | cons p rest ih =>
      obtain ⟨k, w⟩ := p
      simp only [dictLookup] at h
      cases h2 : dictLookup rest key with
      | some v2 =>
          rw [h2] at h
          injection h with h
          subst h
          exact List.mem_cons_of_mem _ (ih h2)
      | none =>
          rw [h2] at h
          by_cases hk : key = k
          · simp [hk] at h
            subst hk; subst h
            exact List.mem_cons_self _ _
          · simp [hk] at h

theorem dictLookup_of_nodup {key v : Nat} {m : List (Nat × Nat)}
    (hnd : (m.map Prod.fst).Nodup) (hmem : (key, v) ∈ m) :
    dictLookup m key = some v := by
  induction m with
  | nil => simp at hmem
  | cons p rest ih =>
      obtain ⟨k, w⟩ := p
      simp only [List.map_cons, List.nodup_cons] at hnd
      rcases List.mem_cons.mp hmem with h | h
      · injection h with h1 h2
        subst h1; subst h2
        have hnone : dictLookup rest key = none := by
          cases h2 : dictLookup rest key with
          | none => rfl
          | some v2 =>
              exact absurd (List.mem_map_of_mem Prod.fst (dictLookup_mem h2)) hnd.1
        simp [dictLookup, hnone]
      · have := ih hnd.2 h
        simp [dictLookup, this]

theorem wordIndexMapFrom_map_fst (l : List Token) :
    ∀ n, (wordIndexMapFrom n l).map Prod.fst = l.map Token.i := by
  induction l with
  | nil => intro n; rfl
  | cons tok rest ih =>
      intro n
      simp [wordIndexMapFrom, ih (n + 1)]

theorem mem_wordIndexMapFrom (k v : Nat) (l : List Token) :
    ∀ n, (k, v) ∈ wordIndexMapFrom n l ↔
      ∃ j, ∃ hj : j < l.length, (l.get ⟨j, hj⟩).i = k ∧ v = n + j + 1 := by
  induction l with
  | nil => intro n; simp [wordIndexMapFrom]
  | cons tok rest ih =>
      intro n
      simp only [wordIndexMapFrom, List.mem_cons, ih (n + 1)]
      constructor
      · rintro (h | ⟨j, hj, hji, hv⟩)
        · injection h with h1 h2
          exact ⟨0, by simp, by simp [List.get, h1], by omega⟩
        · exact ⟨j + 1, by simpa using Nat.succ_lt_succ hj, by simpa using hji, by omega⟩
      · rintro ⟨j, hj, hji, hv⟩
        cases j with
        | zero =>
            left
            simp [List.get] at hji
            rw [hji]
            simp [hv]
        | succ j =>
            right
            refine ⟨j, by simpa using Nat.lt_of_succ_lt_succ hj, by simpa using hji, by omega⟩

theorem dictLookup_wordIndexMap_self_isSome {tok : Token} {sent : Sentence}
    (h : tok ∈ sent) : (dictLookup (wordIndexMap sent) tok.i).isSome := by
  rw [dictLookup_isSome_iff, wordIndexMap, wordIndexMapFrom_map_fst]
  exact List.mem_map_of_mem Token.i h

/-! ### Word records of a sentence -/

theorem mem_sentenceWordsAux (tn sn : Nat) (w : WordRecord) (l : List Token) :
    ∀ wi, w ∈ sentenceWordsAux tn sn wi l ↔
      ∃ j, ∃ hj : j < l.length,
        w = { text_number := tn, sentence_number := sn,
              word_number := wi + j + 1, word_form := (l.get ⟨j, hj⟩).text } := by
  induction l with
  | nil => intro wi; simp [sentenceWordsAux]
  | cons tok rest ih =>
      intro wi
      simp only [sentenceWordsAux, List.mem_cons, ih (wi + 1)]
      constructor
      · rintro (h | ⟨j, hj, hw⟩)
        · exact ⟨0, by simp, by simpa using h⟩
        · refine ⟨j + 1, by simpa using Nat.succ_lt_succ hj, ?_⟩
          rw [hw]
          have : wi + 1 + j + 1 = wi + (j + 1) + 1 := by omega
          simp [this]
      · rintro ⟨j, hj, hw⟩
        cases j with
        | zero => left; simpa using hw
        | succ j =>
            right
            refine ⟨j, by simpa using Nat.lt_of_succ_lt_succ hj, ?_⟩
            rw [hw]
            have : wi + (j + 1) + 1 = wi + 1 + j + 1 := by omega
            simp [this]

theorem sentenceWordsAux_map_word_number (tn sn : Nat) (l : List Token) :
    ∀ wi, (sentenceWordsAux tn sn wi l).map WordRecord.word_number
      = List.range' (wi + 1) l.length := by
  induction l with
  | nil => intro wi; rfl
  | cons tok rest ih =>
      intro wi
      simp [sentenceWordsAux, List.range'_succ, ih (wi + 1)]

theorem sentenceWords_map_word_number (tn sn : Nat) (sent : Sentence) :
    (sentenceWords tn sn sent).map WordRecord.word_number = List.range' 1 sent.length :=
  sentenceWordsAux_map_word_number tn sn sent 0

theorem mem_sentenceWords_fields {tn sn : Nat} {w : WordRecord} {sent : Sentence}
    (h : w ∈ sentenceWords tn sn sent) :
    w.text_number = tn ∧ w.sentence_number = sn ∧
    1 ≤ w.word_number ∧ w.word_number ≤ sent.length := by
  rw [sentenceWords, mem_sentenceWordsAux] at h
  obtain ⟨j, hj, hw⟩ := h
  subst hw
  refine ⟨rfl, rfl, ?_, ?_⟩ <;> dsimp only <;> omega

/-! ### Locating records inside the closed forms -/

theorem mem_docWordsFrom (tn : Nat) (w : WordRecord) (sents : List Sentence) :
    ∀ sn, w ∈ docWordsFrom tn sn sents ↔
      ∃ j, j < sents.length ∧ w ∈ sentenceWords tn (sn + j) (sents.getD j []) := by
  induction sents with
  | nil => intro sn; simp [docWordsFrom]
  | cons sent rest ih =>
      intro sn
      simp only [docWordsFrom, List.mem_append, ih (sn + 1)]
      constructor
      · rintro (h | ⟨j, hj, hm⟩)
        · exact ⟨0, by simp, by simpa using h⟩
        · refine ⟨j + 1, by simpa using Nat.succ_lt_succ hj, ?_⟩
          have : sn + (j + 1) = sn + 1 + j := by omega
          simpa [this] using hm
      · rintro ⟨j, hj, hm⟩
        cases j with
        | zero => left; simpa using hm
        | succ j =>
            right
            refine ⟨j, by simpa using Nat.lt_of_succ_lt_succ hj, ?_⟩
            have : sn + 1 + j = sn + (j + 1) := by omega
            simpa [this] using hm

theorem mem_corpusWordsFrom (nlp : String → Doc) (w : WordRecord) (texts : List String) :
    ∀ tn, w ∈ corpusWordsFrom nlp tn texts ↔
      ∃ j, j < texts.length ∧ w ∈ docWords (tn + j) (nlp (texts.getD j "")) := by
  induction texts with
  | nil => intro tn; simp [corpusWordsFrom]
  | cons text rest ih =>
      intro tn
      simp only [corpusWordsFrom, List.mem_append, ih (tn + 1)]
      constructor
      · rintro (h | ⟨j, hj, hm⟩)
        · exact ⟨0, by simp, by simpa using h⟩
        · refine ⟨j + 1, by simpa using Nat.succ_lt_succ hj, ?_⟩
          have : tn + (j + 1) = tn + 1 + j := by omega
          simpa [this] using hm
      · rintro ⟨j, hj, hm⟩
        cases j with
        | zero => left; simpa using hm
        | succ j =>
            right
            refine ⟨j, by simpa using Nat.lt_of_succ_lt_succ hj, ?_⟩
            have : tn + 1 + j = tn + (j + 1) := by omega
            simpa [this] using hm

theorem mem_docRelationsFrom (tn : Nat) (r : RelationRecord) (sents : List Sentence) :
    ∀ sn, r ∈ docRelationsFrom tn sn sents ↔
      ∃ j, j < sents.length ∧ r ∈ sentenceRelations tn (sn + j) (sents.getD j []) := by
  induction sents with
  | nil => intro sn; simp [docRelationsFrom]
  | cons sent rest ih =>
      intro sn
      simp only [docRelationsFrom, List.mem_append, ih (sn + 1)]
      constructor
      · rintro (h | ⟨j, hj, hm⟩)
        · exact ⟨0, by simp, by simpa using h⟩
        · refine ⟨j + 1, by simpa using Nat.succ_lt_succ hj, ?_⟩
          have : sn + (j + 1) = sn + 1 + j := by omega
          simpa [this] using hm
      · rintro ⟨j, hj, hm⟩
        cases j with
        | zero => left; simpa using hm
        | succ j =>
            right
            refine ⟨j, by simpa using Nat.lt_of_succ_lt_succ hj, ?_⟩
            have : sn + 1 + j = sn + (j + 1) := by omega
            simpa [this] using hm

theorem mem_corpusRelationsFrom (nlp : String → Doc) (r : RelationRecord) (texts : List String) :
    ∀ tn, r ∈ corpusRelationsFrom nlp tn texts ↔
      ∃ j, j < texts.length ∧ r ∈ docRelations (tn + j) (nlp (texts.getD j "")) := by
  induction texts with
  | nil => intro tn; simp [corpusRelationsFrom]
  | cons text rest ih =>
      intro tn
      simp only [corpusRelationsFrom, List.mem_append, ih (tn + 1)]
      constructor
      · rintro (h | ⟨j, hj, hm⟩)
        · exact ⟨0, by simp, by simpa using h⟩
        · refine ⟨j + 1, by simpa using Nat.succ_lt_succ hj, ?_⟩
          have : tn + (j + 1) = tn + 1 + j := by omega
          simpa [this] using hm
      · rintro ⟨j, hj, hm⟩
        cases j with
        | zero => left; simpa using hm
        | succ j =>
            right
            refine ⟨j, by simpa using Nat.lt_of_succ_lt_succ hj, ?_⟩
            have : tn + 1 + j = tn + (j + 1) := by omega
            simpa [this] using hm

theorem mem_docWords_text_number {tn : Nat} {w : WordRecord} {doc : Doc}
    (h : w ∈ docWords tn doc) : w.text_number = tn := by
  rw [docWords, mem_docWordsFrom] at h
  obtain ⟨j, hj, hm⟩ := h
  exact (mem_sentenceWords_fields hm).1

/-! ### Filtering the Word Table down to one document, one sentence -/

theorem corpusWordsFrom_filter_text (nlp : String → Doc) (d : Nat) (texts : List String) :
    ∀ tn, (corpusWordsFrom nlp tn texts).filter (fun w => w.text_number == d)
      = if tn ≤ d ∧ d < tn + texts.length
        then docWords d (nlp (texts.getD (d - tn) "")) else [] := by
  induction texts with
  | nil => intro tn; simp [corpusWordsFrom]
  | cons text rest ih =>
      intro tn
      simp only [corpusWordsFrom, List.filter_append, ih (tn + 1)]
      by_cases hd : d = tn
      · subst hd
        have hkeep : (docWords d (nlp text)).filter (fun w => w.text_number == d)
            = docWords d (nlp text) := by
          rw [List.filter_eq_self]
          intro w hw
          simp [mem_docWords_text_number hw]
        have hcond : ¬(d + 1 ≤ d ∧ d < d + 1 + rest.length) := by omega
        rw [hkeep, if_neg hcond, if_pos (by simp)]
        simp
      · have hdrop : (docWords tn (nlp text)).filter (fun w => w.text_number == d) = [] := by
          rw [List.filter_eq_nil_iff]
          intro w hw
          simp [mem_docWords_text_number hw, hd, Ne.symm]
        rw [hdrop, List.nil_append]
        by_cases hc : tn + 1 ≤ d ∧ d < tn + 1 + rest.length
        · rw [if_pos hc, if_pos (by simp only [List.length_cons]; omega)]
          have h1 : d - tn = (d - (tn + 1)) + 1 := by omega
          rw [h1, List.getD_cons_succ]
        · rw [if_neg hc, if_neg (by simp only [List.length_cons]; omega)]

theorem docWordsFrom_filter_sentence (tn s : Nat) (sents : List Sentence) :
    ∀ sn, (docWordsFrom tn sn sents).filter (fun w => w.sentence_number == s)
      = if sn ≤ s ∧ s < sn + sents.length
        then sentenceWords tn s (sents.getD (s - sn) []) else [] := by
  induction sents with
  | nil => intro sn; simp [docWordsFrom]
  | cons sent rest ih =>
      intro sn
      simp only [docWordsFrom, List.filter_append, ih (sn + 1)]
      by_cases hs : s = sn
      · subst hs
        have hkeep : (sentenceWords tn s sent).filter (fun w => w.sentence_number == s)
            = sentenceWords tn s sent := by
          rw [List.filter_eq_self]
          intro w hw
          simp [(mem_sentenceWords_fields hw).2.1]
        have hcond : ¬(s + 1 ≤ s ∧ s < s + 1 + rest.length) := by omega
        rw [hkeep, if_neg hcond, if_pos (by simp)]
        simp
      · have hdrop : (sentenceWords tn sn sent).filter (fun w => w.sentence_number == s) = [] := by
          rw [List.filter_eq_nil_iff]
          intro w hw
          simp [(mem_sentenceWords_fields hw).2.1, hs, Ne.symm]
        rw [hdrop, List.nil_append]
        by_cases hc : sn + 1 ≤ s ∧ s < sn + 1 + rest.length
        · rw [if_pos hc, if_pos (by simp only [List.length_cons]; omega)]
          have h1 : s - sn = (s - (sn + 1)) + 1 := by omega
          rw [h1, List.getD_cons_succ]
        · rw [if_neg hc, if_neg (by simp only [List.length_cons]; omega)]

/-! ### Relation records of one sentence -/

theorem relationFor_root {tn sn : Nat} {m : List (Nat × Nat)} {tok : Token}
    (hd : tok.dep = "ROOT") : relationFor tn sn m tok = none := by
  have hb : (tok.dep == "ROOT") = true := by simp [hd]
  unfold relationFor
  rw [hb]
  simp

theorem relationFor_head_none {tn sn : Nat} {m : List (Nat × Nat)} {tok : Token}
    (hH : dictLookup m tok.headI = none) : relationFor tn sn m tok = none := by
  unfold relationFor
  rw [hH]
  simp

theorem relationFor_i_none {tn sn : Nat} {m : List (Nat × Nat)} {tok : Token}
    (hI : dictLookup m tok.i = none) : relationFor tn sn m tok = none := by
  unfold relationFor
  rw [hI]
  cases hH : dictLookup m tok.headI <;> by_cases hd : tok.dep = "ROOT" <;> simp [hd]

theorem relationFor_some_some {tn sn : Nat} {m : List (Nat × Nat)} {tok : Token} {w1 w2 : Nat}
    (hI : dictLookup m tok.i = some w1) (hH : dictLookup m tok.headI = some w2)
    (hd : tok.dep ≠ "ROOT") :
    relationFor tn sn m tok
      = some { text_number := tn, sentence_number := sn, word_number1 := w1,
               word_number2 := w2, relation := tok.dep, dep_label := tok.dep } := by
  have hb : (tok.dep == "ROOT") = false := by simp [hd]
  unfold relationFor
  rw [hI, hH, hb]
  simp

theorem relationFor_eq_some (tn sn : Nat) (m : List (Nat × Nat)) (tok : Token)
    (r : RelationRecord) :
    relationFor tn sn m tok = some r ↔
      tok.dep ≠ "ROOT" ∧
      ∃ w1 w2, dictLookup m tok.i = some w1 ∧ dictLookup m tok.headI = some w2 ∧
        r = { text_number := tn, sentence_number := sn, word_number1 := w1,
              word_number2 := w2, relation := tok.dep, dep_label := tok.dep } := by
  by_cases hd : tok.dep = "ROOT"
  · rw [relationFor_root hd]
    simp [hd]
  · cases hH : dictLookup m tok.headI with
    | none =>
        rw [relationFor_head_none hH]
        simp [hH]
    | some w2 =>
        cases hI : dictLookup m tok.i with
        | none =>
            rw [relationFor_i_none hI]
            simp [hI]
        | some w1 =>
            rw [relationFor_some_some hI hH hd]
            constructor
            · intro h
              injection h with h
              exact ⟨hd, w1, w2, rfl, rfl, h.symm⟩
            · rintro ⟨-, w1', w2', h1, h2, hr⟩
              injection h1 with e1
              injection h2 with e2
              subst e1
              subst e2
              subst hr
              rfl

theorem wordIndexMap_lookup_inv {sent : Sentence} {key v : Nat}
    (h : dictLookup (wordIndexMap sent) key = some v) :
    ∃ j, ∃ hj : j < sent.length, (sent.get ⟨j, hj⟩).i = key ∧ v = j + 1 := by
  have hm := dictLookup_mem h
  rw [wordIndexMap, mem_wordIndexMapFrom] at hm
  obtain ⟨j, hj, h1, h2⟩ := hm
  exact ⟨j, hj, h1, by omega⟩

theorem wordIndexMap_lookup_at {sent : Sentence} (hnodup : (sent.map Token.i).Nodup)
    {j : Nat} (hj : j < sent.length) :
    dictLookup (wordIndexMap sent) ((sent.get ⟨j, hj⟩).i) = some (j + 1) := by
  apply dictLookup_of_nodup
  · rw [wordIndexMap, wordIndexMapFrom_map_fst]; exact hnodup
  · rw [wordIndexMap, mem_wordIndexMapFrom]
    exact ⟨j, hj, rfl, by omega⟩

theorem get_i_inj {sent : Sentence} (hnodup : (sent.map Token.i).Nodup)
    {p k : Nat} (hp : p < sent.length) (hk : k < sent.length)
    (h : (sent.get ⟨p, hp⟩).i = (sent.get ⟨k, hk⟩).i) : p = k := by
  have hp' : p < (sent.map Token.i).length := by simpa using hp
  have hk' : k < (sent.map Token.i).length := by simpa using hk
  have hgm : (sent.map Token.i).get ⟨p, hp'⟩ = (sent.map Token.i).get ⟨k, hk'⟩ := by
    simp only [List.get_eq_getElem, List.getElem_map]
    simpa [List.get_eq_getElem] using h
  have h2 := hnodup.get_inj_iff.mp hgm
  exact congrArg Fin.val h2

theorem word_of_wordIndexMap_lookup (tn sn : Nat) {sent : Sentence} {key v : Nat}
    (h : dictLookup (wordIndexMap sent) key = some v) :
    ∃ w ∈ sentenceWords tn sn sent, w.word_number = v := by
  obtain ⟨j, hj, _, hv⟩ := wordIndexMap_lookup_inv h
  refine ⟨{ text_number := tn, sentence_number := sn,
            word_number := 0 + j + 1, word_form := (sent.get ⟨j, hj⟩).text }, ?_, ?_⟩
  · rw [sentenceWords, mem_sentenceWordsAux]
    exact ⟨j, hj, rfl⟩
  · dsimp only; omega

theorem mem_sentenceRelations_fields {tn sn : Nat} {sent : Sentence} {r : RelationRecord}
    (h : r ∈ sentenceRelations tn sn sent) :
    r.text_number = tn ∧ r.sentence_number = sn ∧
    (∃ w ∈ sentenceWords tn sn sent, w.word_number = r.word_number1) ∧
    (∃ w ∈ sentenceWords tn sn sent, w.word_number = r.word_number2) := by
  rw [sentenceRelations] at h
  obtain ⟨tok, htok, hfor⟩ := List.mem_filterMap.mp h
  obtain ⟨hdep, w1, w2, h1, h2, hr⟩ := (relationFor_eq_some tn sn _ tok r).mp hfor
  subst hr
  exact ⟨rfl, rfl, word_of_wordIndexMap_lookup tn sn h1, word_of_wordIndexMap_lookup tn sn h2⟩

theorem relationFor_isSome_of_head_in {tn sn : Nat} {sent : Sentence} {tok : Token}
    (htok : tok ∈ sent)
    (hhead : tok.dep ≠ "ROOT" → tok.headI ∈ sent.map Token.i) :
    (relationFor tn sn (wordIndexMap sent) tok).isSome = !(tok.dep == "ROOT") := by
  by_cases hd : tok.dep = "ROOT"
  · simp [relationFor, hd]
  · have hH : (dictLookup (wordIndexMap sent) tok.headI).isSome := by
      rw [dictLookup_isSome_iff, wordIndexMap, wordIndexMapFrom_map_fst]
      exact hhead hd
    have hI := dictLookup_wordIndexMap_self_isSome htok
    obtain ⟨w1, hw1⟩ := Option.isSome_iff_exists.mp hI
    obtain ⟨w2, hw2⟩ := Option.isSome_iff_exists.mp hH
    simp [relationFor, hd, hw1, hw2]

theorem length_filterMap_eq_length_filter {α β : Type} (f : α → Option β) (p : α → Bool)
    (l : List α) (h : ∀ a ∈ l, (f a).isSome = p a) :
    (l.filterMap f).length = (l.filter p).length := by
  induction l with
  | nil => rfl
  | cons a rest ih =>
      have ha := h a (List.mem_cons_self a rest)
      have ih2 := ih (fun x hx => h x (List.mem_cons_of_mem a hx))
      cases hf : f a with
      | some b =>
          rw [hf] at ha
          simp only [Option.isSome_some] at ha
          simp [List.filterMap_cons, hf, List.filter_cons, ← ha, ih2]
      | none =>
          rw [hf] at ha
          simp only [Option.isSome_none] at ha
          simp [List.filterMap_cons, hf, List.filter_cons, ← ha, ih2]

theorem length_filter_add_length_filter_not {α : Type} (p : α → Bool) (l : List α) :
    (l.filter p).length + (l.filter (fun a => !p a)).length = l.length := by
  induction l with
  | nil => rfl
  | cons a rest ih =>
      by_cases h : p a <;> simp [List.filter_cons, h] <;> omega

/-! ### Claim C1: word numbers of each (document, sentence) pair are 1..N -/

/-- C1: for every processed corpus and every document number `d` and
sentence number `s` appearing in the Word Table, the `word_number` values
recorded for `(d, s)` are exactly `1, ..., N` (in order, hence with no
gaps or duplicates), where `N` is the number of tokens the annotator
produced for that sentence; numbering is positional, not derived from the
annotator's internal token identifier. -/
theorem word_number_contiguity (nlp : String → Doc) (lang : String) (corpus : List String)
    (d s : Nat)
    (h : ∃ w ∈ (process_corpus (freshWLZ nlp lang) corpus).word_data,
        w.text_number = d ∧ w.sentence_number = s) :
    ((((process_corpus (freshWLZ nlp lang) corpus).word_data.filter
          (fun w => w.text_number == d)).filter
        (fun w => w.sentence_number == s)).map WordRecord.word_number)
      = List.range' 1 ((nlp (corpus.getD (d - 1) "")).getD (s - 1) []).length := by
  have hwd : (process_corpus (freshWLZ nlp lang) corpus).word_data
      = corpusWordsFrom nlp 1 corpus := by
    have hspec := (process_corpus_spec (freshWLZ nlp lang) corpus).1
    simpa [freshWLZ, corpusWords] using hspec
  rw [hwd] at h ⊢
  obtain ⟨w, hw, hd, hs⟩ := h
  obtain ⟨j, hj, hwj⟩ := (mem_corpusWordsFrom nlp w corpus 1).mp hw
  have htd : w.text_number = 1 + j := mem_docWords_text_number hwj
  rw [corpusWordsFrom_filter_text nlp d corpus 1,
      if_pos (show 1 ≤ d ∧ d < 1 + corpus.length by omega)]
  have hdoc : corpus.getD (d - 1) "" = corpus.getD j "" := by
    have : d - 1 = j := by omega
    rw [this]
  rw [docWords, docWordsFrom_filter_sentence]
  have hwd2 : w ∈ docWordsFrom d 1 (nlp (corpus.getD (d - 1) "")) := by
    rw [hdoc]
    have h1j : 1 + j = d := by omega
    rw [← h1j]
    exact hwj
  obtain ⟨j2, hj2, hwj2⟩ := (mem_docWordsFrom d w _ 1).mp hwd2
  have hsd : w.sentence_number = 1 + j2 := (mem_sentenceWords_fields hwj2).2.1
  rw [if_pos (show 1 ≤ s ∧ s < 1 + (nlp (corpus.getD (d - 1) "")).length by omega)]
  exact sentenceWords_map_word_number d s _

/-- A tiny concrete annotator used to instantiate hypotheses of the
theorems at concrete inputs: every text is annotated as one sentence of
two tokens, a determiner depending on a root noun. -/
def demoNlp : String → Doc := fun _ =>
  [[{ text := "The", i := 0, dep := "det", headI := 1 },
    { text := "cat", i := 1, dep := "ROOT", headI := 1 }]]

theorem word_number_contiguity_witness :
    (∃ w ∈ (process_corpus (freshWLZ demoNlp "uk") ["The cat"]).word_data,
        w.text_number = 1 ∧ w.sentence_number = 1) ∧
    ((((process_corpus (freshWLZ demoNlp "uk") ["The cat"]).word_data.filter
          (fun w => w.text_number == 1)).filter
        (fun w => w.sentence_number == 1)).map WordRecord.word_number)
      = List.range' 1 ((demoNlp (["The cat"].getD 0 "")).getD 0 []).length :=
  ⟨by decide, word_number_contiguity demoNlp "uk" ["The cat"] 1 1 (by decide)⟩

/-! ### Claim C2: exactly N−1 relation records for a single-root sentence -/

/-- C2: for a sentence of `N` tokens produced by the annotator (token
identifiers are unique within the text, per the annotator contract) in
which exactly one token carries the `ROOT` label and every non-root
token's head lies in the sentence, the relation loop emits exactly
`N - 1` records: every record stems from a non-root token at some
position `k` (dependent number `k + 1`, head number the word number of
the token carrying the head's identifier, labelled with the token's
dependency label), and every non-root token has such a record; the root
token gets none. -/
theorem relation_coverage (tn sn : Nat) (sent : Sentence)
    (huniq : (sent.map Token.i).Nodup)
    (hroot : (sent.filter (fun t => t.dep == "ROOT")).length = 1)
    (hheads : ∀ t ∈ sent, t.dep ≠ "ROOT" → t.headI ∈ sent.map Token.i) :
    (sentenceRelations tn sn sent).length = sent.length - 1 ∧
    (∀ r ∈ sentenceRelations tn sn sent,
      r.text_number = tn ∧ r.sentence_number = sn ∧
      ∃ k, ∃ hk : k < sent.length,
        (sent.get ⟨k, hk⟩).dep ≠ "ROOT" ∧
        r.word_number1 = k + 1 ∧
        r.relation = (sent.get ⟨k, hk⟩).dep ∧
        ∃ j, ∃ hj : j < sent.length,
          (sent.get ⟨j, hj⟩).i = (sent.get ⟨k, hk⟩).headI ∧ r.word_number2 = j + 1) ∧
    (∀ k, ∀ hk : k < sent.length, (sent.get ⟨k, hk⟩).dep ≠ "ROOT" →
      ∃ r ∈ sentenceRelations tn sn sent, r.word_number1 = k + 1 ∧
        r.relation = (sent.get ⟨k, hk⟩).dep ∧
        ∃ j, ∃ hj : j < sent.length,
          (sent.get ⟨j, hj⟩).i = (sent.get ⟨k, hk⟩).headI ∧ r.word_number2 = j + 1) := by
  refine ⟨?_, ?_, ?_⟩
  · rw [sentenceRelations,
        length_filterMap_eq_length_filter _ (fun t => !(t.dep == "ROOT")) sent
          (fun t ht => relationFor_isSome_of_head_in ht (hheads t ht))]
    have h2 := length_filter_add_length_filter_not (fun t => t.dep == "ROOT") sent
    simp only [] at h2 hroot ⊢
    omega
  · intro r hr
    rw [sentenceRelations] at hr
    obtain ⟨tok, htok, hfor⟩ := List.mem_filterMap.mp hr
    obtain ⟨hdep, w1, w2, h1, h2, hreq⟩ := (relationFor_eq_some tn sn _ tok r).mp hfor
    subst hreq
    refine ⟨rfl, rfl, ?_⟩
    obtain ⟨k, hk, hki, hw1⟩ := wordIndexMap_lookup_inv h1
    obtain ⟨⟨p, hp⟩, hpe⟩ := List.mem_iff_get.mp htok
    have hpi : (sent.get ⟨p, hp⟩).i = (sent.get ⟨k, hk⟩).i := by rw [hpe, hki]
    have hpk : p = k := get_i_inj huniq hp hk hpi
    subst hpk
    refine ⟨p, hp, ?_, ?_, ?_, ?_⟩
    · rw [hpe]; exact hdep
    · dsimp only; omega
    · dsimp only; rw [hpe]
    · obtain ⟨j, hj, hji, hjw⟩ := wordIndexMap_lookup_inv h2
      refine ⟨j, hj, ?_, ?_⟩
      · rw [hji, hpe]
      · dsimp only; omega
  · intro k hk hdep
    have htok : sent.get ⟨k, hk⟩ ∈ sent := List.get_mem sent k hk
    have hI : dictLookup (wordIndexMap sent) ((sent.get ⟨k, hk⟩).i) = some (k + 1) :=
      wordIndexMap_lookup_at huniq hk
    have hHs : (dictLookup (wordIndexMap sent) ((sent.get ⟨k, hk⟩).headI)).isSome := by
      rw [dictLookup_isSome_iff, wordIndexMap, wordIndexMapFrom_map_fst]
      exact hheads _ htok hdep
    obtain ⟨w2, hw2⟩ := Option.isSome_iff_exists.mp hHs
    have hfor := @relationFor_some_some tn sn _ _ _ _ hI hw2 hdep
    refine ⟨_, List.mem_filterMap.mpr ⟨sent.get ⟨k, hk⟩, htok, hfor⟩, rfl, rfl, ?_⟩
    obtain ⟨j, hj, hji, hjw⟩ := wordIndexMap_lookup_inv hw2
    exact ⟨j, hj, hji, by dsimp only; omega⟩

/-- The single demo sentence the annotator `demoNlp` produces. -/
def demoSent : Sentence :=
  [{ text := "The", i := 0, dep := "det", headI := 1 },
   { text := "cat", i := 1, dep := "ROOT", headI := 1 }]

theorem relation_coverage_witness :
    (demoSent.map Token.i).Nodup ∧
    (demoSent.filter (fun t => t.dep == "ROOT")).length = 1 ∧
    (∀ t ∈ demoSent, t.dep ≠ "ROOT" → t.headI ∈ demoSent.map Token.i) ∧
    (sentenceRelations 1 1 demoSent).length = demoSent.length - 1 :=
  ⟨by decide, by decide, by decide,
    (relation_coverage 1 1 demoSent (by decide) (by decide) (by decide)).1⟩

/-! ### Claim C3: relation addresses resolve within the same (d, s) -/

/-- C3: every relation record produced for a document and sentence refers,
through both its dependent and its head word number, to word records of
the same document number and sentence number in the Word Table; the
per-sentence addressing map never leaks across sentences or documents. -/
theorem relation_address_validity (nlp : String → Doc) (lang : String) (corpus : List String)
    (r : RelationRecord)
    (hr : r ∈ (process_corpus (freshWLZ nlp lang) corpus).relation_data) :
    (∃ w ∈ (process_corpus (freshWLZ nlp lang) corpus).word_data,
        w.text_number = r.text_number ∧ w.sentence_number = r.sentence_number ∧
        w.word_number = r.word_number1) ∧
    (∃ w ∈ (process_corpus (freshWLZ nlp lang) corpus).word_data,
        w.text_number = r.text_number ∧ w.sentence_number = r.sentence_number ∧
        w.word_number = r.word_number2) := by
  have hwd : (process_corpus (freshWLZ nlp lang) corpus).word_data
      = corpusWordsFrom nlp 1 corpus := by
    have hspec := (process_corpus_spec (freshWLZ nlp lang) corpus).1
    simpa [freshWLZ, corpusWords] using hspec
  have hrd : (process_corpus (freshWLZ nlp lang) corpus).relation_data
      = corpusRelationsFrom nlp 1 corpus := by
    have hspec := (process_corpus_spec (freshWLZ nlp lang) corpus).2.1
    simpa [freshWLZ, corpusRelations] using hspec
  rw [hrd] at hr
  rw [hwd]
  obtain ⟨ti, hti, hr1⟩ := (mem_corpusRelationsFrom nlp r corpus 1).mp hr
  rw [docRelations] at hr1
  obtain ⟨si, hsi, hr2⟩ := (mem_docRelationsFrom _ r _ 1).mp hr1
  obtain ⟨hrt, hrs, hw1, hw2⟩ := mem_sentenceRelations_fields hr2
  constructor
  · obtain ⟨w, hwmem, hwn⟩ := hw1
    obtain ⟨hwt, hws, -, -⟩ := mem_sentenceWords_fields hwmem
    refine ⟨w, ?_, ?_, ?_, hwn⟩
    · exact (mem_corpusWordsFrom nlp w corpus 1).mpr
        ⟨ti, hti, (mem_docWordsFrom _ w _ 1).mpr ⟨si, hsi, hwmem⟩⟩
    · rw [hwt, ← hrt]
    · rw [hws, ← hrs]
  · obtain ⟨w, hwmem, hwn⟩ := hw2
    obtain ⟨hwt, hws, -, -⟩ := mem_sentenceWords_fields hwmem
    refine ⟨w, ?_, ?_, ?_, hwn⟩
    · exact (mem_corpusWordsFrom nlp w corpus 1).mpr
        ⟨ti, hti, (mem_docWordsFrom _ w _ 1).mpr ⟨si, hsi, hwmem⟩⟩
    · rw [hwt, ← hrt]
    · rw [hws, ← hrs]

/-- The one relation record `demoNlp`'s sentence yields: "The" (word 1)
depends on "cat" (word 2) with label det. -/
def demoRel : RelationRecord :=
  { text_number := 1, sentence_number := 1, word_number1 := 1,
    word_number2 := 2, relation := "det", dep_label := "det" }

theorem relation_address_validity_witness :
    demoRel ∈ (process_corpus (freshWLZ demoNlp "uk") ["The cat"]).relation_data ∧
    ((∃ w ∈ (process_corpus (freshWLZ demoNlp "uk") ["The cat"]).word_data,
        w.text_number = demoRel.text_number ∧ w.sentence_number = demoRel.sentence_number ∧
        w.word_number = demoRel.word_number1) ∧
    (∃ w ∈ (process_corpus (freshWLZ demoNlp "uk") ["The cat"]).word_data,
        w.text_number = demoRel.text_number ∧ w.sentence_number = demoRel.sentence_number ∧
        w.word_number = demoRel.word_number2)) :=
  ⟨by decide, relation_address_validity demoNlp "uk" ["The cat"] demoRel (by decide)⟩

/-! ### Claim C4: an out-of-sentence head degrades gracefully -/

theorem nonroot_token_record (tn sn : Nat) {sent : Sentence}
    (huniq : (sent.map Token.i).Nodup)
    {k : Nat} (hk : k < sent.length) (hdep : (sent.get ⟨k, hk⟩).dep ≠ "ROOT")
    (hhead : (sent.get ⟨k, hk⟩).headI ∈ sent.map Token.i) :
    ∃ r ∈ sentenceRelations tn sn sent, r.word_number1 = k + 1 ∧
      r.relation = (sent.get ⟨k, hk⟩).dep ∧
      ∃ j, ∃ hj : j < sent.length,
        (sent.get ⟨j, hj⟩).i = (sent.get ⟨k, hk⟩).headI ∧ r.word_number2 = j + 1 := by
  have htok : sent.get ⟨k, hk⟩ ∈ sent := List.get_mem sent k hk
  have hI : dictLookup (wordIndexMap sent) ((sent.get ⟨k, hk⟩).i) = some (k + 1) :=
    wordIndexMap_lookup_at huniq hk
  have hHs : (dictLookup (wordIndexMap sent) ((sent.get ⟨k, hk⟩).headI)).isSome := by
    rw [dictLookup_isSome_iff, wordIndexMap, wordIndexMapFrom_map_fst]
    exact hhead
  obtain ⟨w2, hw2⟩ := Option.isSome_iff_exists.mp hHs
  have hfor := @relationFor_some_some tn sn _ _ _ _ hI hw2 hdep
  refine ⟨_, List.mem_filterMap.mpr ⟨sent.get ⟨k, hk⟩, htok, hfor⟩, rfl, rfl, ?_⟩
  obtain ⟨j, hj, hji, hjw⟩ := wordIndexMap_lookup_inv hw2
  exact ⟨j, hj, hji, by dsimp only; omega⟩

/-- C4: a token (position `k`) whose head reference is no token identifier
of its sentence does not make processing fail: the sentence's word
records are emitted unchanged (word numbers `1..N`, including a record
for the offending token itself), no relation record has the offending
token as dependent, and every other well-headed non-root token still gets
its relation record. -/
theorem head_outside_sentence_failsoft (tn sn : Nat) (sent : Sentence) (k : Nat)
    (hk : k < sent.length)
    (huniq : (sent.map Token.i).Nodup)
    (hbad : (sent.get ⟨k, hk⟩).headI ∉ sent.map Token.i) :
    (sentenceWords tn sn sent).map WordRecord.word_number = List.range' 1 sent.length ∧
    (∃ w ∈ sentenceWords tn sn sent,
        w.word_number = k + 1 ∧ w.word_form = (sent.get ⟨k, hk⟩).text) ∧
    (∀ r ∈ sentenceRelations tn sn sent, r.word_number1 ≠ k + 1) ∧
    (∀ j, ∀ hj : j < sent.length, (sent.get ⟨j, hj⟩).dep ≠ "ROOT" →
      (sent.get ⟨j, hj⟩).headI ∈ sent.map Token.i →
      ∃ r ∈ sentenceRelations tn sn sent, r.word_number1 = j + 1 ∧
        r.relation = (sent.get ⟨j, hj⟩).dep) := by
  refine ⟨sentenceWords_map_word_number tn sn sent, ?_, ?_, ?_⟩
  · refine ⟨{ text_number := tn, sentence_number := sn,
              word_number := 0 + k + 1, word_form := (sent.get ⟨k, hk⟩).text }, ?_, ?_, rfl⟩
    · rw [sentenceWords, mem_sentenceWordsAux]
      exact ⟨k, hk, rfl⟩
    · dsimp only; omega
  · intro r hr
    rw [sentenceRelations] at hr
    obtain ⟨tok, htok, hfor⟩ := List.mem_filterMap.mp hr
    obtain ⟨hdep, w1, w2, h1, h2, hreq⟩ := (relationFor_eq_some tn sn _ tok r).mp hfor
    subst hreq
    dsimp only
    intro hw1k
    obtain ⟨p, hp, hpi, hpw⟩ := wordIndexMap_lookup_inv h1
    have hpk : p = k := by omega
    subst hpk
    obtain ⟨⟨q, hq⟩, hqe⟩ := List.mem_iff_get.mp htok
    have hqi : (sent.get ⟨q, hq⟩).i = (sent.get ⟨p, hp⟩).i := by rw [hqe, hpi]
    have hqp : q = p := get_i_inj huniq hq hp hqi
    subst hqp
    have htokk : tok = sent.get ⟨q, hk⟩ := by rw [← hqe]
    have hHmem : tok.headI ∈ sent.map Token.i := by
      have hs : (dictLookup (wordIndexMap sent) tok.headI).isSome :=
        Option.isSome_iff_exists.mpr ⟨w2, h2⟩
      rw [dictLookup_isSome_iff, wordIndexMap, wordIndexMapFrom_map_fst] at hs
      exact hs
    rw [htokk] at hHmem
    exact hbad hHmem
  · intro j hj hdep hhead
    obtain ⟨r, hr, hw1, hrel, -⟩ := nonroot_token_record tn sn huniq hj hdep hhead
    exact ⟨r, hr, hw1, hrel⟩

/-! ### `get_word_form` and serialization (`generate_files`) -/

/-- `get_word_form`: scan `self.word_data` in order, return the
`word_form` of the first record matching all three keys, `None` if no
record matches. -/
def get_word_form (st : WordLinkageZone) (text_number sentence_number word_number : Nat) :
    Option String :=
  (st.word_data.find? (fun w =>
      w.text_number == text_number && w.sentence_number == sentence_number &&
      w.word_number == word_number)).map WordRecord.word_form

/-- Python's f-string rendering of the gloss lookup
(`f"{spacy.glossary.explain(...)}"`): `None` prints as the string
`"None"`, a present gloss prints as itself. -/
def pyFormat : Option String → String
  | none => "None"
  | some s => s

/-- One data line of `words.txt`. -/
def wordLine (w : WordRecord) : String :=
  toString w.text_number ++ "\t" ++ toString w.sentence_number ++ "\t"
    ++ toString w.word_number ++ "\t" ++ w.word_form ++ "\n"

/-- The full text content `generate_files` writes to `words.txt`:
header row, then one line per Word Table record in table order. -/
def wordsFileContent (st : WordLinkageZone) : String :=
  "TextNumber\tSentenceNumber\tWordNumber\tWordForm\n"
    ++ String.join (st.word_data.map wordLine)

/-- One data line of `relations.txt`; the `Relation` column holds
`f"{spacy.glossary.explain(rel['dep_label'])}"` with `explain` the
injected gloss resolver. -/
def relationLine (explain : String → Option String) (r : RelationRecord) : String :=
  toString r.text_number ++ "\t" ++ toString r.sentence_number ++ "\t"
    ++ toString r.word_number1 ++ "\t" ++ toString r.word_number2 ++ "\t"
    ++ pyFormat (explain r.dep_label) ++ "\n"

/-- The full text content `generate_files` writes to `relations.txt`. -/
def relationsFileContent (explain : String → Option String) (st : WordLinkageZone) : String :=
  "TextNumber\tSentenceNumber\tWordNumber1\tWordNumber2\tRelation\n"
    ++ String.join (st.relation_data.map (relationLine explain))

/-- Modelled from the spec (§4.2, §6 produced artifacts): `words.txt` is
tab-delimited with the fixed header and one row per Word Record, fields
in column order, a trailing newline per record. -/
def specWordsFile (st : WordLinkageZone) : String :=
  "TextNumber\tSentenceNumber\tWordNumber\tWordForm\n"
    ++ String.join (st.word_data.map fun w =>
        String.intercalate "\t"
          [toString w.text_number, toString w.sentence_number,
           toString w.word_number, w.word_form] ++ "\n")

/-- Modelled from the spec (§4.2, §6 produced artifacts):
`relations.txt` is tab-delimited with the fixed header and one row per
Relation Record, `WordNumber1` the dependent, `WordNumber2` the head, and
`Relation` the resolved gloss. -/
def specRelationsFile (explain : String → Option String) (st : WordLinkageZone) : String :=
  "TextNumber\tSentenceNumber\tWordNumber1\tWordNumber2\tRelation\n"
    ++ String.join (st.relation_data.map fun r =>
        String.intercalate "\t"
          [toString r.text_number, toString r.sentence_number,
           toString r.word_number1, toString r.word_number2,
           (explain r.dep_label).getD ""] ++ "\n")

/-! ### Claim C5: document numbering is per call, not global -/

/-- C5 counterexample: the claim says a second `process_corpus` call on
the same instance hands the new text a document number strictly greater
than every number already in the tables.  In fact `enumerate(corpus)`
restarts at 0 on every call: after processing `["first"]` and then
`["second"]`, all four word records carry `text_number = 1`, so the
record appended last has a document number that is NOT greater than the
ones already present. -/
theorem document_numbering_not_global :
    ((process_corpus (process_corpus (freshWLZ demoNlp "uk") ["first"]) ["second"]).word_data.map
        WordRecord.text_number) = [1, 1, 1, 1] ∧
    ¬(∀ w ∈ (process_corpus (process_corpus (freshWLZ demoNlp "uk") ["first"]) ["second"]).word_data.drop
          (process_corpus (freshWLZ demoNlp "uk") ["first"]).word_data.length,
        ∀ w0 ∈ (process_corpus (freshWLZ demoNlp "uk") ["first"]).word_data,
          w0.text_number < w.text_number) := by
  constructor
  · decide
  · decide

/-- C5 amended: document numbering is monotonic starting at 1 WITHIN a
single `process_corpus` call — for any prior state, the call appends
`corpusWords`, whose records for document number `d` are exactly those of
the `d`-th text of that call — so a later call restarts document
numbering at 1 instead of continuing past the numbers already in the
tables.  Sentence numbers restart at 1 for every document and word
numbers restart at 1 for every sentence. -/
theorem numbering_per_call (st : WordLinkageZone) (corpus : List String) :
    (process_corpus st corpus).word_data = st.word_data ++ corpusWords st.nlp corpus ∧
    (∀ d, (corpusWords st.nlp corpus).filter (fun w => w.text_number == d)
        = if 1 ≤ d ∧ d < 1 + corpus.length
          then docWords d (st.nlp (corpus.getD (d - 1) "")) else []) ∧
    (∀ tn s doc, (docWords tn doc).filter (fun w => w.sentence_number == s)
        = if 1 ≤ s ∧ s < 1 + (doc : Doc).length
          then sentenceWords tn s (doc.getD (s - 1) []) else []) ∧
    (∀ tn sn sent, (sentenceWords tn sn (sent : Sentence)).map WordRecord.word_number
        = List.range' 1 sent.length) := by
  refine ⟨(process_corpus_spec st corpus).1, ?_, ?_, ?_⟩
  · intro d
    exact corpusWordsFrom_filter_text st.nlp d corpus 1
  · intro tn s doc
    exact docWordsFrom_filter_sentence tn s doc 1
  · intro tn sn sent
    exact sentenceWords_map_word_number tn sn sent

/-! ### Claim C8: unsupported language fails at construction -/

/-- C8: constructing the builder for a language outside the supported map
fails immediately with an error naming the code — for EVERY loader
capability, i.e. before any model loading is attempted — while a
supported code never yields that error. -/
theorem unsupported_language_rejected (loadModel : String → Option (String → Doc))
    (language : String) :
    (language ≠ "uk" → WordLinkageZone.init loadModel language
        = Except.error ("Unsupported language: " ++ language)) ∧
    (language = "uk" → WordLinkageZone.init loadModel language
        ≠ Except.error ("Unsupported language: " ++ language)) := by
  constructor
  · intro h
    have hb : (language == "uk") = false := by
      rw [beq_eq_false_iff_ne]
      exact h
    simp [WordLinkageZone.init, load_language_model, model_name_map, List.lookup, hb]
  · intro h
    subst h
    cases hm : loadModel "uk_core_news_lg" with
    | some nlp =>
        simp [WordLinkageZone.init, load_language_model, model_name_map, List.lookup, hm]
    | none =>
        simp only [WordLinkageZone.init, load_language_model, model_name_map, List.lookup,
          BEq.refl, hm]
        intro hcontra
        have : "model load failure: uk_core_news_lg" = "Unsupported language: uk" := by
          injection hcontra
        exact absurd this (by decide)

theorem unsupported_language_rejected_witness :
    WordLinkageZone.init (fun _ => none) "en" = Except.error ("Unsupported language: en") ∧
    WordLinkageZone.init (fun _ => none) "uk" ≠ Except.error ("Unsupported language: uk") :=
  ⟨(unsupported_language_rejected (fun _ => none) "en").1 (by decide),
   (unsupported_language_rejected (fun _ => none) "uk").2 rfl⟩

/-! ### Claim C9: `process_corpus` only appends, in processing order -/

/-- C9: a `process_corpus` call leaves the previous table contents as an
unchanged prefix and appends the new records in processing order —
`corpusWords` / `corpusRelations` enumerate documents, then sentences,
then tokens, with no resorting — and modifies no other field of the
builder (`language`, `nlp`).  The call is modelled as a pure state
transformer: it performs no file I/O. -/
theorem process_corpus_append_only (st : WordLinkageZone) (corpus : List String) :
    (process_corpus st corpus).word_data = st.word_data ++ corpusWords st.nlp corpus ∧
    (process_corpus st corpus).relation_data
      = st.relation_data ++ corpusRelations st.nlp corpus ∧
    (process_corpus st corpus).language = st.language ∧
    (process_corpus st corpus).nlp = st.nlp :=
  process_corpus_spec st corpus

/-- A sentence with an annotator anomaly: the third token's head
reference (7) is no token identifier of the sentence. -/
def demoBadSent : Sentence :=
  [{ text := "A", i := 0, dep := "det", headI := 1 },
   { text := "B", i := 1, dep := "ROOT", headI := 1 },
   { text := "C", i := 2, dep := "obl", headI := 7 }]

theorem head_outside_sentence_failsoft_witness :
    (demoBadSent.map Token.i).Nodup ∧
    (demoBadSent.get ⟨2, by decide⟩).headI ∉ demoBadSent.map Token.i ∧
    (sentenceWords 1 1 demoBadSent).map WordRecord.word_number
      = List.range' 1 demoBadSent.length ∧
    (∀ r ∈ sentenceRelations 1 1 demoBadSent, r.word_number1 ≠ 2 + 1) :=
  ⟨by decide, by decide,
    (head_outside_sentence_failsoft 1 1 demoBadSent 2 (by decide) (by decide) (by decide)).1,
    (head_outside_sentence_failsoft 1 1 demoBadSent 2 (by decide) (by decide) (by decide)).2.2.1⟩

/-! ### String lemmas for the serialization claims -/

theorem join_append (l1 l2 : List String) :
    String.join (l1 ++ l2) = String.join l1 ++ String.join l2 := by
  rw [String.join_eq, String.join_eq, String.join_eq]
  apply String.ext
  simp

theorem join_cons (a : String) (l : List String) :
    String.join (a :: l) = a ++ String.join l := by
  rw [String.join_eq, String.join_eq]
  apply String.ext
  simp

/-! ### Claim C6: exact content of `words.txt` and `relations.txt` -/

/-- C6: serialization emits, for each of the two tables, its fixed
tab-delimited header line followed by one tab-delimited line per record
in table order with a trailing newline — exactly the layout the spec
prescribes (`WordNumber1` = dependent, `WordNumber2` = head, `Relation` =
resolved gloss), provided every label is resolvable (the unresolvable
case is the subject of the `missing_gloss` theorems); with empty tables
both files are exactly their header rows.  (Writing the two strings to
`words.txt` / `relations.txt` in the output directory is external I/O.) -/
theorem generate_files_format (explain : String → Option String) (st : WordLinkageZone)
    (h : ∀ r ∈ st.relation_data, (explain r.dep_label).isSome) :
    wordsFileContent st = specWordsFile st ∧
    relationsFileContent explain st = specRelationsFile explain st ∧
    (st.word_data = [] →
      wordsFileContent st = "TextNumber\tSentenceNumber\tWordNumber\tWordForm\n") ∧
    (st.relation_data = [] →
      relationsFileContent explain st
        = "TextNumber\tSentenceNumber\tWordNumber1\tWordNumber2\tRelation\n") := by
  refine ⟨rfl, ?_, ?_, ?_⟩
  · rw [relationsFileContent, specRelationsFile]
    congr 1
    apply congrArg String.join
    apply List.map_congr_left
    intro r hr
    obtain ⟨g, hg⟩ := Option.isSome_iff_exists.mp (h r hr)
    simp only [relationLine, hg, pyFormat, Option.getD_some]
    rfl
  · intro h0
    rw [wordsFileContent, h0]
    rw [show String.join (List.map wordLine []) = "" from rfl]
    simp
  · intro h0
    rw [relationsFileContent, h0]
    rw [show String.join (List.map (relationLine explain) []) = "" from rfl]
    simp

theorem generate_files_format_witness :
    (∀ r ∈ (process_corpus (freshWLZ demoNlp "uk") ["The cat"]).relation_data,
        ((fun l => if l == "det" then some "determiner" else none) r.dep_label).isSome) ∧
    wordsFileContent (process_corpus (freshWLZ demoNlp "uk") ["The cat"])
      = specWordsFile (process_corpus (freshWLZ demoNlp "uk") ["The cat"]) :=
  ⟨by decide,
    (generate_files_format (fun l => if l == "det" then some "determiner" else none)
      (process_corpus (freshWLZ demoNlp "uk") ["The cat"]) (by decide)).1⟩

/-! ### Claim C7: a missing gloss renders as "None", not as empty -/

/-- A resolver with no glosses at all. -/
def noGloss : String → Option String := fun _ => none

/-- A builder state whose Relation Table holds the single record
`demoRel`. -/
def demoStC7 : WordLinkageZone :=
  { language := "uk", nlp := demoNlp, word_data := [], relation_data := [demoRel] }

/-- C7 counterexample: serializing a relation table holding one record
whose label the resolver cannot gloss produces the line
`1\t1\t1\t2\tNone` — the Relation field is the placeholder string "None"
(Python renders `f"{None}"` that way), NOT the empty field the claim
asserts. -/
theorem missing_gloss_not_empty :
    relationsFileContent noGloss demoStC7
      = "TextNumber\tSentenceNumber\tWordNumber1\tWordNumber2\tRelation\n1\t1\t1\t2\tNone\n" ∧
    relationsFileContent noGloss demoStC7
      ≠ "TextNumber\tSentenceNumber\tWordNumber1\tWordNumber2\tRelation\n1\t1\t1\t2\t\n" := by
  constructor
  · decide
  · decide

/-- C7 amended: for every relation record whose label has no gloss,
serialization still succeeds and emits the record's full line, but the
Relation field carries the string "None" (the f-string rendering of the
null gloss) rather than an empty field. -/
theorem missing_gloss_renders_none (explain : String → Option String) (st : WordLinkageZone)
    (r : RelationRecord) (hr : r ∈ st.relation_data) (hmiss : explain r.dep_label = none) :
    ∃ pre post, relationsFileContent explain st
      = pre ++ (toString r.text_number ++ "\t" ++ toString r.sentence_number ++ "\t"
          ++ toString r.word_number1 ++ "\t" ++ toString r.word_number2 ++ "\t"
          ++ "None" ++ "\n") ++ post := by
  obtain ⟨l1, l2, hsplit⟩ := List.append_of_mem hr
  refine ⟨"TextNumber\tSentenceNumber\tWordNumber1\tWordNumber2\tRelation\n"
      ++ String.join (l1.map (relationLine explain)),
    String.join (l2.map (relationLine explain)), ?_⟩
  rw [relationsFileContent, hsplit, List.map_append, List.map_cons, join_append, join_cons]
  have hline : relationLine explain r
      = toString r.text_number ++ "\t" ++ toString r.sentence_number ++ "\t"
        ++ toString r.word_number1 ++ "\t" ++ toString r.word_number2 ++ "\t"
        ++ "None" ++ "\n" := by
    simp only [relationLine, hmiss, pyFormat]
  rw [hline]
  simp [String.append_assoc]

theorem missing_gloss_renders_none_witness :
    demoRel ∈ demoStC7.relation_data ∧
    noGloss demoRel.dep_label = none ∧
    ∃ pre post, relationsFileContent noGloss demoStC7
      = pre ++ (toString demoRel.text_number ++ "\t" ++ toString demoRel.sentence_number ++ "\t"
          ++ toString demoRel.word_number1 ++ "\t" ++ toString demoRel.word_number2 ++ "\t"
          ++ "None" ++ "\n") ++ post :=
  ⟨by decide, rfl,
    missing_gloss_renders_none noGloss demoStC7 demoRel (by decide) rfl⟩

/-! ### Claim C10: `get_word_form` -/

theorem find?_eq_head?_filter {α : Type} (p : α → Bool) (l : List α) :
    l.find? p = (l.filter p).head? := by
  induction l with
  | nil => rfl
  | cons a rest ih =>
      by_cases h : p a
      · rw [List.find?_cons_of_pos _ h, List.filter_cons_of_pos h]
        rfl
      · rw [List.find?_cons_of_neg _ h, List.filter_cons_of_neg h, ih]

theorem get_word_form_isSome_of {st : WordLinkageZone} {d s n : Nat}
    (h : ∃ w ∈ st.word_data,
        w.text_number = d ∧ w.sentence_number = s ∧ w.word_number = n) :
    (get_word_form st d s n).isSome := by
  obtain ⟨w, hw, h1, h2, h3⟩ := h
  rw [get_word_form, Option.isSome_map']
  exact List.find?_isSome.mpr ⟨w, hw, by simp [h1, h2, h3]⟩

theorem relation_refs_in_word_table (nlp : String → Doc) (lang : String)
    (corpus : List String) {r : RelationRecord}
    (hr : r ∈ (process_corpus (freshWLZ nlp lang) corpus).relation_data) :
    (∃ w ∈ (process_corpus (freshWLZ nlp lang) corpus).word_data,
        w.text_number = r.text_number ∧ w.sentence_number = r.sentence_number ∧
        w.word_number = r.word_number1) ∧
    (∃ w ∈ (process_corpus (freshWLZ nlp lang) corpus).word_data,
        w.text_number = r.text_number ∧ w.sentence_number = r.sentence_number ∧
        w.word_number = r.word_number2) := by
  have hwd : (process_corpus (freshWLZ nlp lang) corpus).word_data
      = corpusWordsFrom nlp 1 corpus := by
    have hspec := (process_corpus_spec (freshWLZ nlp lang) corpus).1
    simpa [freshWLZ, corpusWords] using hspec
  have hrd : (process_corpus (freshWLZ nlp lang) corpus).relation_data
      = corpusRelationsFrom nlp 1 corpus := by
    have hspec := (process_corpus_spec (freshWLZ nlp lang) corpus).2.1
    simpa [freshWLZ, corpusRelations] using hspec
  rw [hrd] at hr
  rw [hwd]
  obtain ⟨ti, hti, hr1⟩ := (mem_corpusRelationsFrom nlp r corpus 1).mp hr
  rw [docRelations] at hr1
  obtain ⟨si, hsi, hr2⟩ := (mem_docRelationsFrom _ r _ 1).mp hr1
  obtain ⟨hrt, hrs, hw1, hw2⟩ := mem_sentenceRelations_fields hr2
  constructor
  · obtain ⟨w, hwmem, hwn⟩ := hw1
    obtain ⟨hwt, hws, -, -⟩ := mem_sentenceWords_fields hwmem
    refine ⟨w, ?_, ?_, ?_, hwn⟩
    · exact (mem_corpusWordsFrom nlp w corpus 1).mpr
        ⟨ti, hti, (mem_docWordsFrom _ w _ 1).mpr ⟨si, hsi, hwmem⟩⟩
    · rw [hwt, ← hrt]
    · rw [hws, ← hrs]
  · obtain ⟨w, hwmem, hwn⟩ := hw2
    obtain ⟨hwt, hws, -, -⟩ := mem_sentenceWords_fields hwmem
    refine ⟨w, ?_, ?_, ?_, hwn⟩
    · exact (mem_corpusWordsFrom nlp w corpus 1).mpr
        ⟨ti, hti, (mem_docWordsFrom _ w _ 1).mpr ⟨si, hsi, hwmem⟩⟩
    · rw [hwt, ← hrt]
    · rw [hws, ← hrs]

/-- C10 (implicit): `get_word_form` returns the word form of the FIRST
Word Table record matching all three keys (head of the filtered table),
returns `none` rather than failing when nothing matches, and — on a state
built by `process_corpus` from a fresh instance — returns a word form for
both word numbers of every relation record. -/
theorem get_word_form_correct (nlp : String → Doc) (lang : String) (corpus : List String)
    (d s n : Nat) :
    get_word_form (process_corpus (freshWLZ nlp lang) corpus) d s n
      = ((process_corpus (freshWLZ nlp lang) corpus).word_data.filter
          (fun w => w.text_number == d && w.sentence_number == s &&
            w.word_number == n)).head?.map WordRecord.word_form ∧
    ((∀ w ∈ (process_corpus (freshWLZ nlp lang) corpus).word_data,
        ¬(w.text_number = d ∧ w.sentence_number = s ∧ w.word_number = n)) →
      get_word_form (process_corpus (freshWLZ nlp lang) corpus) d s n = none) ∧
    (∀ r ∈ (process_corpus (freshWLZ nlp lang) corpus).relation_data,
      (get_word_form (process_corpus (freshWLZ nlp lang) corpus)
          r.text_number r.sentence_number r.word_number1).isSome ∧
      (get_word_form (process_corpus (freshWLZ nlp lang) corpus)
          r.text_number r.sentence_number r.word_number2).isSome) := by
  refine ⟨?_, ?_, ?_⟩
  · rw [get_word_form, find?_eq_head?_filter]
  · intro h0
    have hnone : (process_corpus (freshWLZ nlp lang) corpus).word_data.find?
        (fun w => w.text_number == d && w.sentence_number == s && w.word_number == n)
        = none := by
      rw [List.find?_eq_none]
      intro w hw
      have hnot := h0 w hw
      simp only [Bool.and_eq_true, beq_iff_eq]
      rintro ⟨⟨ha, hb⟩, hc⟩
      exact hnot ⟨ha, hb, hc⟩
    rw [get_word_form, hnone]
    rfl
  · intro r hr
    have hrefs := relation_refs_in_word_table nlp lang corpus hr
    exact ⟨get_word_form_isSome_of hrefs.1, get_word_form_isSome_of hrefs.2⟩

theorem get_word_form_correct_witness :
    (get_word_form (process_corpus (freshWLZ demoNlp "uk") ["The cat"]) 1 1 1).isSome ∧
    (get_word_form (process_corpus (freshWLZ demoNlp "uk") ["The cat"]) 1 1 2).isSome := by
  have h := (get_word_form_correct demoNlp "uk" ["The cat"] 1 1 1).2.2 demoRel (by decide)
  exact ⟨h.1, h.2⟩
